import Mathlib

/-!
Verification development for a small Go HTTP service (`server.go`): an
in-memory "fish" store with handlers for listing, fetching by id,
fetching a random record, and creating records.

The embedding below translates the Go source shallowly:
* `Fish` mirrors the `Fish` struct (string fields, an `int` field).
* The store `db map[string]Fish` is modelled as an association list with
  Go-map assignment semantics (`insertKV` replaces an existing binding).
* `http.ResponseWriter` is modelled by `RW` with Go's semantics: the
  first `WriteHeader` fixes the status, a `Write` without a prior
  `WriteHeader` sets status 200 implicitly, and a handler that returns
  without writing produces status 200.
* External effects are passed as explicit inputs: the outcome of
  `ioutil.ReadAll` (`Except String String`), the `content-type` header
  value, the behaviour of `json.Unmarshal` (a function returning the
  resulting value and an optional error, since Go's `Unmarshal` both
  fills the target and returns an error), `time.Now().UnixNano()`
  (a `Nat`), and the draw of `rand.Intn` (a `Nat` index).
-/

/-- Mirrors the Go struct `Fish` (server.go lines 15-20): fields `ID`,
`Name`, `Environment` (strings) and `MaxLength` (int). Go zero value is
all-empty / zero. -/
structure Fish where
  ID : String
  Name : String
  Environment : String
  MaxLength : Int
deriving Repr, DecidableEq

/-- The zero value of the Go struct `Fish` (what `var fish Fish` declares). -/
def Fish.zero : Fish := ⟨"", "", "", 0⟩

/-- The store `db map[string]Fish`, as an association list. -/
abbrev Db := List (String × Fish)

/-- Go map assignment `db[k] = v`: replace the binding if the key is
present, otherwise add it. -/
def insertKV : Db → String → Fish → Db
  | [], k, v => [(k, v)]
  | (k', v') :: rest, k, v =>
    if k' = k then (k, v) :: rest else (k', v') :: insertKV rest k v

/-- The key set of the map (`for id := range h.db`). -/
def dbKeys (db : Db) : List String := db.map (fun kv => kv.1)

/-- Go map read `v, ok := db[k]`. -/
def dbLookup : Db → String → Option Fish
  | [], _ => none
  | (k', v') :: rest, k => if k' = k then some v' else dbLookup rest k

/-- Model of `http.ResponseWriter`: status decided by the first
`WriteHeader`, accumulated headers and body. -/
structure RW where
  status : Option Nat
  headers : List (String × String)
  body : String
deriving Repr, DecidableEq

/-- A fresh response writer (nothing written yet). -/
def mkRW : RW := ⟨none, [], ""⟩

/-- `w.WriteHeader(code)`: only the first call takes effect. -/
def RW.writeHeader (w : RW) (code : Nat) : RW :=
  if w.status.isSome then w else { w with status := some code }

/-- `w.Write(bytes)`: implicitly sends status 200 when no status was set. -/
def RW.write (w : RW) (s : String) : RW :=
  { w with status := some (w.status.getD 200), body := w.body ++ s }

/-- `w.Header().Add(k, v)`. -/
def RW.addHeader (w : RW) (k v : String) : RW :=
  { w with headers := w.headers ++ [(k, v)] }

/-- The status the client observes: 200 when the handler never called
`WriteHeader` or `Write` (Go sends 200 at end of handler). -/
def RW.effStatus (w : RW) : Nat := w.status.getD 200

/-- Go's `json.Marshal` on a `Fish` value, with the `omitempty` tags of
the struct: zero-valued fields are omitted. (Marshalling a `Fish` cannot
fail in Go, so this is total and the handlers' dead `err != nil`
branches after it are not modelled.) -/
def marshalFish (f : Fish) : String :=
  let fields :=
    (if f.ID = "" then [] else ["\"id\":\"" ++ f.ID ++ "\""]) ++
    (if f.Name = "" then [] else ["\"name\":\"" ++ f.Name ++ "\""]) ++
    (if f.Environment = "" then [] else ["\"environment\":\"" ++ f.Environment ++ "\""]) ++
    (if f.MaxLength = 0 then [] else ["\"max_length\":" ++ toString f.MaxLength])
  "\x7b" ++ String.intercalate "," fields ++ "\x7d"

/-- Go's `json.Marshal` on a `[]Fish` slice value. A Go slice is either
`nil` (modelled `none`) or a (possibly empty) array (modelled `some`);
`json.Marshal` of a nil slice yields `null`, of a non-nil slice a JSON
array. -/
def marshalFishList : Option (List Fish) → String
  | none => "null"
  | some l => "[" ++ String.intercalate "," (l.map marshalFish) ++ "]"

/-- The loop of `getAllFishes` (server.go lines 34-40): `var fishes
[]Fish` starts as the nil slice (`none`); `append` on nil yields a
non-nil slice. -/
def listAllLoop (db : Db) : Option (List Fish) :=
  db.foldl (fun acc kv => some (acc.getD [] ++ [kv.2])) none

/-- `getAllFishes` (server.go lines 33-51): snapshot all records, marshal,
set `content-type`, write 200 and the JSON bytes. The marshal error
branch is dead (marshalling cannot fail). -/
def getAllFishes (db : Db) : RW :=
  let fishes := listAllLoop db
  let jsonBytes := marshalFishList fishes
  RW.write (RW.writeHeader (RW.addHeader mkRW "content-type" "application/json") 200) jsonBytes

/-- `getRandomCoaster` (server.go lines 53-77): collect the key set; on
empty store answer 404; with one key pick it; otherwise pick the index
drawn by `rand.Intn(len(ids))` (passed in as `pick`); then send a
`location` header `/fishes/{id}` and status 302. -/
def getRandomCoaster (pick : Nat) (db : Db) : RW :=
  let ids := dbKeys db
  if ids.length = 0 then
    RW.writeHeader mkRW 404
  else
    let target := if ids.length = 1 then ids.getD 0 "" else ids.getD pick ""
    RW.writeHeader (RW.addHeader mkRW "location" ("/fishes/" ++ target)) 302

/-- `strings.Split(s, "/")`: accumulate the current piece; a `'/'`
closes it. `strings.Split("", "/")` is `[""]`. -/
def splitSlashAux : List Char → List Char → List String
  | [], acc => [String.mk acc.reverse]
  | c :: cs, acc =>
    if c = '/' then String.mk acc.reverse :: splitSlashAux cs []
    else splitSlashAux cs (c :: acc)

/-- `strings.Split(s, "/")` on the model of Go strings. -/
def splitSlash (s : String) : List String := splitSlashAux s.data []

/-- `getFish` (server.go lines 79-111): split `r.URL.String()` on `/`;
anything but exactly three components is 404; the literal third
component `random` is delegated to `getRandomCoaster`; otherwise look
the component up in the store, 404 on a miss, else 200 with the record
as JSON. -/
def getFish (url : String) (pick : Nat) (db : Db) : RW :=
  let parts := splitSlash url
  if parts.length ≠ 3 then
    RW.writeHeader mkRW 404
  else if parts.getD 2 "" = "random" then
    getRandomCoaster pick db
  else
    match dbLookup db (parts.getD 2 "") with
    | none => RW.writeHeader mkRW 404
    | some foundFish =>
        RW.write (RW.writeHeader (RW.addHeader mkRW "content-type" "application/json") 200)
          (marshalFish foundFish)

/-- The store mutation inside `addNewFish` (server.go lines 138-143):
overwrite the candidate's `ID` with the decimal print of
`time.Now().UnixNano()` and assign `h.db[fish.ID] = fish`; the stored
record is what the handler would echo. -/
def insert (candidate : Fish) (now : Nat) (db : Db) : Fish × Db :=
  let fish := { candidate with ID := toString now }
  (fish, insertKV db fish.ID fish)

/-- `addNewFish` (server.go lines 113-145), in source order:
1. `ioutil.ReadAll(r.Body)`; a read error answers 500 with the error
   text and returns.
2. the `content-type` header is compared with `application/json`; a
   mismatch answers 415 and returns.
3. `json.Unmarshal` into `var fish Fish`; on error the handler writes
   400 with the error text but does NOT return;
4. execution falls through to the insert, so even after a 400 the
   (possibly zero-valued) record is stored under a fresh timestamp id.
`unmarshal` returns the value left in `fish` together with the optional
error, matching Go's in-place decoding. -/
def addNewFish (body : Except String String) (ct : String)
    (unmarshal : String → Fish × Option String) (now : Nat) (db : Db) : RW × Db :=
  match body with
  | .error e => (RW.write (RW.writeHeader mkRW 500) e, db)
  | .ok bodyBytes =>
    if ct = "application/json" then
      let (fish, decodeErr) := unmarshal bodyBytes
      let w := match decodeErr with
        | some e => RW.write (RW.writeHeader mkRW 400) e
        | none => mkRW
      (w, (insert fish now db).2)
    else
      (RW.write (RW.writeHeader mkRW 415)
        ("need content-type \x27application/json\x27 but got \x27" ++ ct ++ "\x27"), db)

/-- The store operations named by the spec, acting on the store state.
`listAll`, `get` and `pickRandom` only read the map; `insert` is the
mutation performed by `addNewFish`. -/
inductive Op where
  | listAll : Op
  | get : String → Op
  | pickRandom : Nat → Op
  | insert : Fish → Nat → Op

/-- Effect of one operation on the store state. -/
def applyOp (db : Db) : Op → Db
  | .listAll => db
  | .get _ => db
  | .pickRandom _ => db
  | .insert c now => (insert c now db).2

/-- The record a `POST /fishes` call stores and returns for a decoded
candidate and the `UnixNano` value it observed: the candidate with its
`ID` overwritten by the timestamp (server.go line 138). -/
def stamp (c : Fish × Nat) : Fish := { c.1 with ID := toString c.2 }

/-- The store entry the same call adds (server.go line 143). -/
def stampKV (c : Fish × Nat) : String × Fish := (toString c.2, stamp c)

/-- Run a sequence of `POST /fishes` inserts from a given store,
collecting the records the calls return (`calls` pairs each decoded
candidate with the `UnixNano` value observed by that call). -/
def runInsertsFrom (db0 : Db) : List (Fish × Nat) → List Fish × Db
  | [] => ([], db0)
  | call :: rest =>
    let r := insert call.1 call.2 db0
    let later := runInsertsFrom r.2 rest
    (r.1 :: later.1, later.2)

/-- Run a sequence of inserts from the empty store. -/
def runInserts (calls : List (Fish × Nat)) : List Fish × Db :=
  runInsertsFrom [] calls

/-! ### Lock-discipline skeleton

Each handler is abstracted to its sequence of lock events and accesses
to the shared map `h.db` (reads of its size included), in source order.
-/

/-- One step of a handler, as far as the store's mutex is concerned. -/
inductive LockAction where
  | lock : LockAction
  | unlock : LockAction
  | dbAccess : LockAction
  | other : LockAction
deriving DecidableEq

/-- `underLockOK locked trace` checks that every access to `h.db` in
`trace` happens while the mutex is held. -/
def underLockOK : Bool → List LockAction → Bool
  | _, [] => true
  | _, .lock :: rest => underLockOK true rest
  | _, .unlock :: rest => underLockOK false rest
  | locked, .dbAccess :: rest => locked && underLockOK locked rest
  | locked, .other :: rest => underLockOK locked rest

/-- `getAllFishes` (lines 36-40): `h.Lock()`; range over `h.db`;
`h.Unlock()`; then marshal and write the response. -/
def getAllFishesTrace : List LockAction :=
  [.lock, .dbAccess, .unlock, .other, .other]

/-- `getRandomCoaster` (lines 54-62): `make([]string, len(h.db))` reads
the map's size BEFORE `h.Lock()`; then the locked copy loop;
`h.Unlock()`; then the response. -/
def getRandomCoasterTrace : List LockAction :=
  [.dbAccess, .lock, .dbAccess, .unlock, .other]

/-- `getFish` identifier-lookup path (lines 92-110): split the URL;
`h.Lock()` with `defer h.Unlock()`; map read; marshal and write happen
before the deferred unlock runs at return. -/
def getFishTrace : List LockAction :=
  [.other, .lock, .dbAccess, .other, .other, .unlock]

/-- `addNewFish` (lines 114-143): body read, header check, decode, then
`h.Lock()` with `defer h.Unlock()` around the map write. -/
def addNewFishTrace : List LockAction :=
  [.other, .other, .other, .lock, .dbAccess, .unlock]

/-- Decimal digits of `n`, most significant first: what Go's
`fmt.Sprintf("%d", n)` prints, and what `Nat.toDigitsCore` (hence
`toString : Nat → String`) computes when given enough fuel. -/
def natToChars (n : Nat) : List Char :=
  if _h : n < 10 then [Nat.digitChar n]
  else natToChars (n / 10) ++ [Nat.digitChar (n % 10)]
decreasing_by exact Nat.div_lt_self (by omega) (by decide)

/-! ### Helper lemmas about the store model -/

theorem insertKV_of_not_mem (db : Db) (k : String) (v : Fish) (h : k ∉ dbKeys db) :
    insertKV db k v = db ++ [(k, v)] := by
  induction db with
  | nil => rfl
  | cons kv rest ih =>
    simp only [dbKeys, List.map_cons, List.mem_cons, not_or] at h
    simp only [insertKV, if_neg (Ne.symm h.1), List.cons_append]
    exact congrArg _ (ih h.2)

theorem dbLookup_self_of_nodup (db : Db) (h : (dbKeys db).Nodup) :
    ∀ kv ∈ db, dbLookup db kv.1 = some kv.2 := by
  induction db with
  | nil => intro kv hkv; cases hkv
  | cons hd rest ih =>
    simp only [dbKeys, List.map_cons, List.nodup_cons] at h
    intro kv hkv
    cases hkv with
    | head => simp [dbLookup]
    | tail _ hmem =>
      have hne : hd.1 ≠ kv.1 := by
        intro he
        exact h.1 (he ▸ List.mem_map_of_mem (fun p => p.1) hmem)
      simp only [dbLookup, if_neg hne]
      exact ih h.2 kv hmem

theorem listAllLoop_getD (db : Db) : (listAllLoop db).getD [] = db.map (fun kv => kv.2) := by
  have aux : ∀ (l : Db) (acc : List Fish),
      l.foldl (fun acc kv => some (acc.getD [] ++ [kv.2])) (some acc) =
        some (acc ++ l.map (fun kv => kv.2)) := by
    intro l
    induction l with
    | nil => intro acc; simp
    | cons hd rest ih => intro acc; simp [ih]
  cases db with
  | nil => rfl
  | cons hd rest =>
    simp only [listAllLoop, List.foldl_cons, Option.getD_none, List.nil_append]
    rw [aux rest [hd.2]]
    simp

/-! ### Claim theorems: POST body handling and lock discipline -/

/-- C1: on a `POST /fishes` whose body is malformed JSON (here `"\x7b"`,
with `json.Unmarshal` reporting an error and leaving the zero value),
the handler does answer 400, but — the `return` being missing after the
error write — it still assigns a timestamp id to the zero-valued record
and inserts it, so the store IS mutated, contradicting the claim. -/
theorem addNewFish_decode_failure_mutates :
    (addNewFish (Except.ok "\x7b") "application/json"
      (fun _ => (Fish.zero, some "unexpected end of JSON input")) 7 []).1.effStatus = 400 ∧
    (addNewFish (Except.ok "\x7b") "application/json"
      (fun _ => (Fish.zero, some "unexpected end of JSON input")) 7 []).2 =
        [("7", { Fish.zero with ID := "7" })] := by
  constructor <;> rfl

/-- C3 counterexample: on the empty store `GET /fishes` marshals the nil
slice, so the body is `null`, not the empty JSON array `[]` the claim
requires. -/
theorem getAllFishes_empty_body_not_array :
    (getAllFishes []).body = "null" ∧ (getAllFishes []).body ≠ "[]" := by
  constructor <;> decide

/-- C3 (amended): on the empty store `GET /fishes` answers 200 with
`content-type: application/json` and body `null` (Go's serialization of
the nil slice), not the empty array. -/
theorem getAllFishes_empty :
    getAllFishes [] = ⟨some 200, [("content-type", "application/json")], "null"⟩ := rfl

/-- C5 counterexample: a request whose body read fails and whose
`content-type` is `text/plain` receives 500 — not the 415 the claim
requires — because the handler reads the body before checking the
header. -/
theorem addNewFish_read_error_wrong_ct_is_500 :
    (addNewFish (Except.error "read failure") "text/plain"
      (fun s => (Fish.zero, some s)) 0 []).1.effStatus = 500 ∧ (500 : Nat) ≠ 415 := by
  constructor <;> decide

/-- C5 (amended): `addNewFish` reads the body first — an I/O failure
during the read yields 500 with the error text and no mutation,
regardless of the `content-type`; only after a successful read is the
header checked, any value other than `application/json` yielding 415
with an explanatory body and no mutation. -/
theorem addNewFish_read_first :
    (∀ (e ct : String) (u : String → Fish × Option String) (now : Nat) (db : Db),
      addNewFish (Except.error e) ct u now db = (RW.write (RW.writeHeader mkRW 500) e, db)) ∧
    (∀ (bytes ct : String) (u : String → Fish × Option String) (now : Nat) (db : Db),
      ct ≠ "application/json" →
        (addNewFish (Except.ok bytes) ct u now db).1.effStatus = 415 ∧
        (addNewFish (Except.ok bytes) ct u now db).2 = db) := by
  refine ⟨fun e ct u now db => rfl, fun bytes ct u now db h => ?_⟩
  simp [addNewFish, if_neg h, RW.effStatus, RW.write, RW.writeHeader, mkRW]

/-- Witness for `addNewFish_read_first` at concrete inputs. -/
theorem addNewFish_read_first_witness :
    addNewFish (Except.error "boom") "text/plain" (fun _ => (Fish.zero, none)) 3 [] =
      (RW.write (RW.writeHeader mkRW 500) "boom", []) ∧
    (addNewFish (Except.ok "\x7b\x7d") "text/plain" (fun _ => (Fish.zero, none)) 3 []).1.effStatus
        = 415 :=
  ⟨addNewFish_read_first.1 "boom" "text/plain" _ 3 [],
   (addNewFish_read_first.2 "\x7b\x7d" "text/plain" _ 3 [] (by decide)).1⟩

/-- C9: lock discipline of the four handlers, on their traces of
lock/unlock events and accesses to the shared map `h.db` (size reads
included). `getAllFishes`, `getFish` and `addNewFish` access the map
only while holding the mutex, but `getRandomCoaster` reads `len(h.db)`
(to size its `ids` buffer) before calling `h.Lock()`, so its trace
violates the discipline. -/
theorem lock_discipline_violated :
    underLockOK false getAllFishesTrace = true ∧
    underLockOK false getFishTrace = true ∧
    underLockOK false addNewFishTrace = true ∧
    underLockOK false getRandomCoasterTrace = false := by
  decide

/-- Every store reachable by the four operations from a store whose keys
already match the identifier of their record keeps that property; the
insert stores the record under exactly its (freshly assigned)
identifier. -/
theorem applyOp_preserves_inv (db : Db) (op : Op)
    (h : ∀ kv ∈ db, kv.1 = kv.2.ID) : ∀ kv ∈ applyOp db op, kv.1 = kv.2.ID := by
  cases op with
  | listAll => exact h
  | get _ => exact h
  | pickRandom _ => exact h
  | insert c now =>
    show ∀ kv ∈ insertKV db (toString now) _, kv.1 = kv.2.ID
    have aux : ∀ (l : Db) (k : String) (v : Fish), v.ID = k →
        (∀ kv ∈ l, kv.1 = kv.2.ID) → ∀ kv ∈ insertKV l k v, kv.1 = kv.2.ID := by
      intro l
      induction l with
      | nil =>
        intro k v hv _ kv hkv
        simp only [insertKV, List.mem_singleton] at hkv
        subst hkv; exact hv.symm
      | cons hd rest ih =>
        intro k v hv hl kv hkv
        simp only [insertKV] at hkv
        by_cases he : hd.1 = k
        · rw [if_pos he] at hkv
          cases hkv with
          | head => exact hv.symm
          | tail _ hmem => exact hl kv (List.mem_cons_of_mem hd hmem)
        · rw [if_neg he] at hkv
          cases hkv with
          | head => exact hl hd (List.mem_cons_self hd rest)
          | tail _ hmem =>
            exact ih k v hv (fun p hp => hl p (List.mem_cons_of_mem hd hp)) kv hmem
    exact aux db (toString now) _ rfl h

/-- C8: in every store state reachable from the empty store by a
sequence of `listAll`, `get`, `pickRandom` and `insert` operations,
every key of the mapping equals the `ID` field of the record stored
under it. -/
theorem store_keys_match_ids (ops : List Op) (kv : String × Fish)
    (h : kv ∈ ops.foldl applyOp []) : kv.1 = kv.2.ID := by
  have aux : ∀ (l : List Op) (db : Db), (∀ p ∈ db, p.1 = p.2.ID) →
      ∀ p ∈ l.foldl applyOp db, p.1 = p.2.ID := by
    intro l
    induction l with
    | nil => intro db hdb p hp; exact hdb p hp
    | cons op rest ih =>
      intro db hdb p hp
      exact ih (applyOp db op) (applyOp_preserves_inv db op hdb) p hp
  exact aux ops [] (fun p hp => absurd hp (List.not_mem_nil p)) kv h

/-- Witness for `store_keys_match_ids`: one insert from the empty store. -/
theorem store_keys_match_ids_witness :
    ("7", Fish.mk "7" "" "" 0) ∈ [Op.insert Fish.zero 7].foldl applyOp [] ∧
      "7" = (Fish.mk "7" "" "" 0).ID :=
  ⟨by decide, store_keys_match_ids [Op.insert Fish.zero 7] ("7", Fish.mk "7" "" "" 0) (by decide)⟩

/-- C6: `GET /fishes/random` answers 404 on the empty store; on a
singleton store it deterministically picks that record's key; and
whenever a pick happens (store non-empty, `rand.Intn` draw in range)
the response is 302 with a `location` header `/fishes/{id}` for a
selected id that is a key of the store. -/
theorem getRandomCoaster_spec (pick : Nat) (db : Db) :
    (db = [] → getRandomCoaster pick db = RW.writeHeader mkRW 404) ∧
    (∀ k f, db = [(k, f)] →
      getRandomCoaster pick db = ⟨some 302, [("location", "/fishes/" ++ k)], ""⟩) ∧
    (db ≠ [] → pick < db.length →
      ∃ t ∈ dbKeys db,
        getRandomCoaster pick db = ⟨some 302, [("location", "/fishes/" ++ t)], ""⟩) := by
  refine ⟨fun h => by subst h; rfl, fun k f h => by subst h; rfl, fun hne hpick => ?_⟩
  have hlen : (dbKeys db).length = db.length := List.length_map db _
  have hlpos : (dbKeys db).length ≠ 0 := by
    rw [hlen]
    exact fun h0 => hne (List.eq_nil_of_length_eq_zero h0)
  by_cases h1 : (dbKeys db).length = 1
  · have h0 : 0 < (dbKeys db).length := by omega
    refine ⟨(dbKeys db).getD 0 "", ?_, ?_⟩
    · rw [List.getD_eq_getElem (dbKeys db) "" h0]
      exact List.getElem_mem h0
    · simp only [getRandomCoaster, if_neg hlpos, if_pos h1]
      rfl
  · have hpick' : pick < (dbKeys db).length := by rw [hlen]; exact hpick
    refine ⟨(dbKeys db).getD pick "", ?_, ?_⟩
    · rw [List.getD_eq_getElem (dbKeys db) "" hpick']
      exact List.getElem_mem hpick'
    · simp only [getRandomCoaster, if_neg hlpos, if_neg h1]
      rfl

/-- Witness for `getRandomCoaster_spec`: the empty store and the
singleton store with id `123` (giving `location: /fishes/123`). -/
theorem getRandomCoaster_spec_witness :
    getRandomCoaster 0 ([] : Db) = RW.writeHeader mkRW 404 ∧
    getRandomCoaster 0 [("123", Fish.zero)] =
      ⟨some 302, [("location", "/fishes/123")], ""⟩ :=
  ⟨(getRandomCoaster_spec 0 []).1 rfl,
   (getRandomCoaster_spec 0 [("123", Fish.zero)]).2.1 "123" Fish.zero rfl⟩

/-- C7: in the `/fishes/` handler, a URL whose split on `/` does not
have exactly three components is answered 404 without consulting the
store (the response is the constant 404 writer, for every store), and
when the third component is the literal `random` the request is
delegated to the random handler before any identifier lookup. -/
theorem getFish_path_shape (url : String) (pick : Nat) (db : Db) :
    ((splitSlash url).length ≠ 3 → getFish url pick db = RW.writeHeader mkRW 404) ∧
    ((splitSlash url).length = 3 → (splitSlash url).getD 2 "" = "random" →
      getFish url pick db = getRandomCoaster pick db) := by
  constructor
  · intro h
    simp only [getFish, if_pos h]
  · intro h3 hr
    simp only [getFish, h3, hr]
    simp

/-- Witness for `getFish_path_shape`: `/fishes/a/b` (four components)
is 404, and `/fishes/random` is delegated to the random handler. -/
theorem getFish_path_shape_witness :
    getFish "/fishes/a/b" 0 ([] : Db) = RW.writeHeader mkRW 404 ∧
    getFish "/fishes/random" 0 ([("5", Fish.zero)] : Db) =
      getRandomCoaster 0 [("5", Fish.zero)] :=
  ⟨(getFish_path_shape "/fishes/a/b" 0 []).1 (by decide),
   (getFish_path_shape "/fishes/random" 0 [("5", Fish.zero)]).2 (by decide) (by decide)⟩

/-! ### Decimal identifier strings: `toString now` is non-empty and injective -/

theorem natToChars_lt (n : Nat) (h : n < 10) : natToChars n = [Nat.digitChar n] := by
  conv_lhs => rw [natToChars]
  simp [h]

theorem natToChars_ge (n : Nat) (h : ¬ n < 10) :
    natToChars n = natToChars (n / 10) ++ [Nat.digitChar (n % 10)] := by
  conv_lhs => rw [natToChars]
  simp [h]

theorem toDigitsCore_eq_natToChars :
    ∀ (fuel n : Nat) (l : List Char), n < fuel →
      Nat.toDigitsCore 10 fuel n l = natToChars n ++ l := by
  intro fuel
  induction fuel with
  | zero => intro n l h; omega
  | succ fuel ih =>
    intro n l h
    by_cases h10 : n / 10 = 0
    · have hn : n < 10 := by omega
      simp only [Nat.toDigitsCore, h10, if_pos]
      rw [natToChars_lt n hn, Nat.mod_eq_of_lt hn]
      rfl
    · have hlt : n / 10 < fuel := by
        have h1 : n / 10 < n := Nat.div_lt_self (by omega) (by decide)
        omega
      simp only [Nat.toDigitsCore, if_neg h10]
      rw [ih (n / 10) (Nat.digitChar (n % 10) :: l) hlt]
      rw [natToChars_ge n (by omega)]
      simp

theorem natToChars_ne_nil (n : Nat) : natToChars n ≠ [] := by
  by_cases h : n < 10
  · simp [natToChars_lt n h]
  · simp [natToChars_ge n h]

theorem digitChar_inj_lt10 : ∀ a < 10, ∀ b < 10, Nat.digitChar a = Nat.digitChar b → a = b := by
  decide

theorem natToChars_injective : ∀ a b : Nat, natToChars a = natToChars b → a = b := by
  intro a
  induction a using Nat.strong_induction_on with
  | _ a ih =>
    intro b heq
    by_cases ha : a < 10
    · by_cases hb : b < 10
      · rw [natToChars_lt a ha, natToChars_lt b hb] at heq
        exact digitChar_inj_lt10 a ha b hb (List.singleton_injective heq)
      · exfalso
        rw [natToChars_lt a ha, natToChars_ge b hb] at heq
        have hlen := congrArg List.length heq
        simp only [List.length_singleton, List.length_append] at hlen
        have hne := natToChars_ne_nil (b / 10)
        cases hnil : natToChars (b / 10) with
        | nil => exact hne hnil
        | cons x xs => rw [hnil] at hlen; simp at hlen
    · by_cases hb : b < 10
      · exfalso
        rw [natToChars_ge a ha, natToChars_lt b hb] at heq
        have hlen := congrArg List.length heq
        simp only [List.length_singleton, List.length_append] at hlen
        have hne := natToChars_ne_nil (a / 10)
        cases hnil : natToChars (a / 10) with
        | nil => exact hne hnil
        | cons x xs => rw [hnil] at hlen; simp at hlen
      · rw [natToChars_ge a ha, natToChars_ge b hb] at heq
        obtain ⟨h1, h2⟩ := List.append_inj' heq rfl
        have hdiv : a / 10 = b / 10 :=
          ih (a / 10) (Nat.div_lt_self (by omega) (by decide)) (b / 10) h1
        have hmod : a % 10 = b % 10 :=
          digitChar_inj_lt10 (a % 10) (Nat.mod_lt a (by decide)) (b % 10)
            (Nat.mod_lt b (by decide)) (List.singleton_injective h2)
        omega

theorem natRepr_eq_natToChars (n : Nat) : Nat.repr n = String.mk (natToChars n) := by
  show (Nat.toDigits 10 n).asString = String.mk (natToChars n)
  rw [Nat.toDigits, toDigitsCore_eq_natToChars (n + 1) n [] (Nat.lt_succ_self n)]
  simp [List.asString]

theorem natRepr_ne_empty (n : Nat) : Nat.repr n ≠ "" := by
  rw [natRepr_eq_natToChars]
  intro h
  exact natToChars_ne_nil n (congrArg String.data h)

theorem natRepr_injective : Function.Injective Nat.repr := by
  intro a b h
  rw [natRepr_eq_natToChars, natRepr_eq_natToChars] at h
  exact natToChars_injective a b (congrArg String.data h)

/-! ### Claim theorems: identifier freshness and insert/list/get consistency -/

/-- C2 counterexample: two back-to-back inserts that observe the same
`UnixNano` value (here 7) produce the same identifier string, so the
second call returns a record whose identifier was already a key of the
store before the call — the claimed freshness fails without a clock
tick. -/
theorem insert_same_tick_collides :
    (insert (Fish.mk "" "B" "" 0) 7 (insert (Fish.mk "" "A" "" 0) 7 []).2).1.ID
      ∈ dbKeys (insert (Fish.mk "" "A" "" 0) 7 []).2 := by decide

/-- C2 (amended): `Insert` always returns a record whose identifier is
non-empty; and the identifier was not previously a key of the store
whenever the decimal `UnixNano` string differs from every existing key
— in particular whenever the clock advanced past all earlier inserts.
Under back-to-back calls with no intervening clock tick the identifier
repeats and the later insert overwrites the earlier record. -/
theorem insert_fresh_id (c : Fish) (now : Nat) (db : Db) :
    (insert c now db).1.ID ≠ "" ∧
    (toString now ∉ dbKeys db → (insert c now db).1.ID ∉ dbKeys db) := by
  constructor
  · show toString now ≠ ""
    exact natRepr_ne_empty now
  · intro h
    exact h

/-- Witness for `insert_fresh_id`: one insert into the empty store. -/
theorem insert_fresh_id_witness :
    (insert Fish.zero 7 []).1.ID ≠ "" ∧ (insert Fish.zero 7 []).1.ID ∉ dbKeys ([] : Db) :=
  ⟨(insert_fresh_id Fish.zero 7 []).1, (insert_fresh_id Fish.zero 7 []).2 (by decide)⟩

/-- Inserting with all-fresh timestamp strings appends the stamped
records in order: the calls return `calls.map stamp` and the store
gains `calls.map stampKV`. -/
theorem runInsertsFrom_fresh (calls : List (Fish × Nat)) :
    ∀ db0 : Db,
      (calls.map (fun c => toString c.2)).Nodup →
      (∀ t ∈ calls, toString t.2 ∉ dbKeys db0) →
      runInsertsFrom db0 calls = (calls.map stamp, db0 ++ calls.map stampKV) := by
  induction calls with
  | nil => intro db0 _ _; simp [runInsertsFrom]
  | cons c rest ih =>
    intro db0 hnd hfresh
    simp only [List.map_cons, List.nodup_cons] at hnd
    have hnot : toString c.2 ∉ dbKeys db0 := hfresh c (List.mem_cons_self c rest)
    have hins : (insert c.1 c.2 db0).2 = db0 ++ [stampKV c] := by
      show insertKV db0 (toString c.2) (stamp c) = _
      exact insertKV_of_not_mem db0 _ _ hnot
    have hkeys : dbKeys (db0 ++ [stampKV c]) = dbKeys db0 ++ [toString c.2] := by
      simp [dbKeys, stampKV]
    have hfresh' : ∀ t ∈ rest, toString t.2 ∉ dbKeys (db0 ++ [stampKV c]) := by
      intro t ht
      rw [hkeys]
      intro hmem
      rcases List.mem_append.mp hmem with h | h
      · exact hfresh t (List.mem_cons_of_mem c ht) h
      · rw [List.mem_singleton] at h
        exact hnd.1 (h ▸ List.mem_map_of_mem (fun x => toString x.2) ht)
    simp only [runInsertsFrom]
    rw [hins, ih (db0 ++ [stampKV c]) hnd.2 hfresh']
    simp only [List.map_cons, List.append_assoc, List.singleton_append]
    rfl

/-- C4 (amended): for every sequence of inserts from the empty store
whose observed `UnixNano` values are pairwise distinct, the list
snapshot taken by `GET /fishes` holds exactly the records the insert
calls returned (same membership, i.e. equal as sets), and each returned
record is retrieved by `Get` at its returned identifier; moreover
`insert` stores the candidate under a fresh server-assigned identifier,
ignoring any identifier the caller supplied. With colliding timestamps
the later insert overwrites the earlier record and the property fails
(see the counterexample). -/
theorem inserts_listAll_get_consistent :
    (∀ calls : List (Fish × Nat), (calls.map Prod.snd).Nodup →
      (∀ f : Fish, f ∈ (listAllLoop (runInserts calls).2).getD [] ↔ f ∈ (runInserts calls).1) ∧
      (∀ r ∈ (runInserts calls).1, dbLookup (runInserts calls).2 r.ID = some r)) ∧
    (∀ (c : Fish) (x : String) (now : Nat) (db : Db),
      insert { c with ID := x } now db = insert c now db) := by
  constructor
  · intro calls hnd
    have hstr : (calls.map (fun c => toString c.2)).Nodup := by
      have hmm : calls.map (fun c => toString c.2) = (calls.map Prod.snd).map toString := by
        simp [List.map_map]
      rw [hmm]
      exact hnd.map (fun a b hab => natRepr_injective hab)
    have key : runInserts calls = (calls.map stamp, calls.map stampKV) := by
      have h0 := runInsertsFrom_fresh calls [] hstr (fun t ht => by simp [dbKeys])
      simpa [runInserts] using h0
    have hkeysmap : dbKeys (calls.map stampKV) = calls.map (fun c => toString c.2) := by
      simp [dbKeys, List.map_map, stampKV]
    have hkeysnd : (dbKeys (runInserts calls).2).Nodup := by
      rw [key, hkeysmap]
      exact hstr
    constructor
    · intro f
      rw [key, listAllLoop_getD]
      simp only [List.map_map]
      constructor
      · intro h
        rcases List.mem_map.mp h with ⟨c, hc, hfc⟩
        exact List.mem_map.mpr ⟨c, hc, hfc⟩
      · intro h
        rcases List.mem_map.mp h with ⟨c, hc, hfc⟩
        exact List.mem_map.mpr ⟨c, hc, hfc⟩
    · intro r hr
      rw [key] at hr
      rcases List.mem_map.mp hr with ⟨c, hc, rfl⟩
      have hmem : (toString c.2, stamp c) ∈ (runInserts calls).2 := by
        rw [key]
        exact List.mem_map_of_mem stampKV hc
      exact dbLookup_self_of_nodup (runInserts calls).2 hkeysnd _ hmem
  · intro c x now db
    rfl

/-- Witness for `inserts_listAll_get_consistent`: a single insert of a
record named `A` at tick 7. -/
theorem inserts_listAll_get_consistent_witness :
    (Fish.mk "7" "A" "" 0 ∈
        (listAllLoop (runInserts [(Fish.mk "" "A" "" 0, 7)]).2).getD [] ↔
      Fish.mk "7" "A" "" 0 ∈ (runInserts [(Fish.mk "" "A" "" 0, 7)]).1) ∧
    dbLookup (runInserts [(Fish.mk "" "A" "" 0, 7)]).2 (Fish.mk "7" "A" "" 0).ID
        = some (Fish.mk "7" "A" "" 0) :=
  ⟨(inserts_listAll_get_consistent.1 [(Fish.mk "" "A" "" 0, 7)] (by decide)).1 _,
   (inserts_listAll_get_consistent.1 [(Fish.mk "" "A" "" 0, 7)] (by decide)).2 _ (by decide)⟩

/-- C4 counterexample: inserting `A` then `B` in the same nanosecond
(tick 7) from the empty store: the second insert overwrites the first,
so record `A` is among the records the calls returned but absent from
the subsequent list snapshot. -/
theorem inserts_same_tick_lose_record :
    Fish.mk "7" "A" "" 0 ∈
        (runInserts [(Fish.mk "" "A" "" 0, 7), (Fish.mk "" "B" "" 0, 7)]).1 ∧
    Fish.mk "7" "A" "" 0 ∉
      (listAllLoop (runInserts [(Fish.mk "" "A" "" 0, 7), (Fish.mk "" "B" "" 0, 7)]).2).getD []
    := by
  constructor <;> decide

/-! ### Claim theorems: the handler splits the URL, query string included -/

theorem splitSlashAux_no_slash (cs : List Char) :
    ∀ acc : List Char, (∀ c ∈ cs, c ≠ '/') →
      splitSlashAux cs acc = [String.mk (acc.reverse ++ cs)] := by
  induction cs with
  | nil => intro acc _; simp [splitSlashAux]
  | cons c rest ih =>
    intro acc h
    have hc : c ≠ '/' := h c (List.mem_cons_self c rest)
    simp only [splitSlashAux, if_neg hc]
    rw [ih (c :: acc) (fun d hd => h d (List.mem_cons_of_mem c hd))]
    simp

theorem splitSlash_fishes (s : String) (hs : ∀ c ∈ s.data, c ≠ '/') :
    splitSlash ("/fishes/" ++ s) = ["", "fishes", s] := by
  have hdata : ("/fishes/" ++ s).data
      = '/' :: 'f' :: 'i' :: 's' :: 'h' :: 'e' :: 's' :: '/' :: s.data := by
    rw [String.data_append]
    rfl
  unfold splitSlash
  rw [hdata]
  simp only [splitSlashAux, reduceIte, List.reverse_nil]
  rw [splitSlashAux_no_slash s.data [] hs]
  simp

/-- C10: the `/fishes/` handler splits `r.URL.String()` — the full URL,
query string included — so for a stored identifier `id` (slash-free,
not the reserved word `random`) and a query suffix `q` (starting with
`?`, slash-free, with `id ++ q` not itself a key), the request
`/fishes/id?…` answers 404 because the query suffix is looked up as
part of the identifier, while `/fishes/id` answers 200. -/
theorem getFish_query_confuses_lookup (db : Db) (id q : String) (f : Fish) (pick : Nat)
    (hf : dbLookup db id = some f)
    (hid : ∀ c ∈ id.data, c ≠ '/')
    (hr : id ≠ "random")
    (hq0 : q.data.head? = some '?')
    (hq : ∀ c ∈ q.data, c ≠ '/')
    (habs : dbLookup db (id ++ q) = none) :
    (getFish ("/fishes/" ++ (id ++ q)) pick db).effStatus = 404 ∧
    (getFish ("/fishes/" ++ id) pick db).effStatus = 200 := by
  have hiq : ∀ c ∈ (id ++ q).data, c ≠ '/' := by
    intro c hc
    rw [String.data_append] at hc
    rcases List.mem_append.mp hc with h | h
    · exact hid c h
    · exact hq c h
  have hqmem : '?' ∈ (id ++ q).data := by
    rw [String.data_append]
    exact List.mem_append_right _ (List.mem_of_mem_head? hq0)
  have hne : id ++ q ≠ "random" := by
    intro he
    rw [he] at hqmem
    revert hqmem
    decide
  constructor
  · rw [show getFish ("/fishes/" ++ (id ++ q)) pick db = RW.writeHeader mkRW 404 from ?_]
    · rfl
    · simp only [getFish, splitSlash_fishes (id ++ q) hiq]
      simp [hne, habs]
  · simp only [getFish, splitSlash_fishes id hid]
    simp [hr, hf, RW.effStatus, RW.write, RW.writeHeader, RW.addHeader, mkRW]

/-- Witness for `getFish_query_confuses_lookup`: the singleton store
with id `123`; `/fishes/123?x=1` is 404 while `/fishes/123` is 200. -/
theorem getFish_query_confuses_lookup_witness :
    (getFish "/fishes/123?x=1" 0 ([("123", Fish.mk "123" "Salmon" "river" 90)] : Db)).effStatus
        = 404 ∧
    (getFish "/fishes/123" 0 ([("123", Fish.mk "123" "Salmon" "river" 90)] : Db)).effStatus
        = 200 := by
  have h := getFish_query_confuses_lookup [("123", Fish.mk "123" "Salmon" "river" 90)]
    "123" "?x=1" (Fish.mk "123" "Salmon" "river" 90) 0
    (by decide) (by decide) (by decide) (by decide) (by decide) (by decide)
  exact ⟨by rw [show "/fishes/123?x=1" = "/fishes/" ++ ("123" ++ "?x=1") from by decide]
            exact h.1,
         by rw [show "/fishes/123" = "/fishes/" ++ "123" from by decide]
            exact h.2⟩
